import Mathlib

/-!
Verification development for the studyocepte-api background-removal service.

The definitions below are a shallow embedding of the code in
`routes/image_processing.py`, `middleware/security.py` and
`routes/batch_operations.py`.  External libraries that the code calls
(`rembg`, PIL, `python-magic`, base64) are modelled as oracle parameters of
an environment record; the numerical mask pipeline (numpy / skimage /
scipy) is embedded concretely, following the documented semantics of
`skimage.morphology.remove_small_objects` (drop connected components with
fewer than `min_size` pixels, 4-connectivity by default) and
`skimage.morphology.remove_small_holes` (complement, remove objects with
`min_size = area_threshold + 1`, complement again, so holes of area at most
`area_threshold` are filled).  The Gaussian blur runs on floating point
data and is kept as an opaque function parameter.

Machine integers do not occur: all pixel values are natural numbers below
256 produced by explicit `% 256`.
-/

namespace StudyoCepte

/-! ### Small dictionary model (Python `dict` semantics: insert replaces the
value at an existing key in place, otherwise appends). -/

def dictInsert {β : Type} (m : List (String × β)) (k : String) (v : β) :
    List (String × β) :=
  match m with
  | [] => [(k, v)]
  | (k₀, v₀) :: rest =>
      if k₀ = k then (k₀, v) :: rest else (k₀, v₀) :: dictInsert rest k v

def dictLookup {β : Type} (m : List (String × β)) (k : String) : Option β :=
  match m with
  | [] => none
  | (k₀, v₀) :: rest => if k₀ = k then some v₀ else dictLookup rest k

def dictKeys {β : Type} (m : List (String × β)) : List String := m.map Prod.fst

theorem dictLookup_insert_self {β : Type} (m : List (String × β)) (k : String) (v : β) :
    dictLookup (dictInsert m k v) k = some v := by
  induction m with
  | nil => simp [dictInsert, dictLookup]
  | cons hd tl ih =>
      obtain ⟨k₀, v₀⟩ := hd
      by_cases h : k₀ = k <;> simp [dictInsert, dictLookup, h, ih]

theorem dictLookup_insert_other {β : Type} (m : List (String × β)) (k k' : String)
    (v : β) (hne : k ≠ k') :
    dictLookup (dictInsert m k v) k' = dictLookup m k' := by
  induction m with
  | nil => simp [dictInsert, dictLookup, hne]
  | cons hd tl ih =>
      obtain ⟨k₀, v₀⟩ := hd
      by_cases h : k₀ = k
      · subst h; simp [dictInsert, dictLookup, hne]
      · simp [dictInsert, dictLookup, h, ih]

theorem mem_dictKeys_cons {β : Type} (k₀ k' : String) (v₀ : β) (tl : List (String × β)) :
    k' ∈ dictKeys ((k₀, v₀) :: tl) ↔ k' = k₀ ∨ k' ∈ dictKeys tl := by
  simp [dictKeys]

theorem mem_dictKeys_insert {β : Type} (m : List (String × β)) (k k' : String) (v : β) :
    k' ∈ dictKeys (dictInsert m k v) ↔ k' = k ∨ k' ∈ dictKeys m := by
  induction m with
  | nil => simp [dictInsert, dictKeys]
  | cons hd tl ih =>
      obtain ⟨k₀, v₀⟩ := hd
      by_cases h : k₀ = k
      · subst h
        rw [show dictInsert ((k₀, v₀) :: tl) k₀ v = (k₀, v) :: tl from by
          simp [dictInsert]]
        rw [mem_dictKeys_cons, mem_dictKeys_cons]
        tauto
      · rw [show dictInsert ((k₀, v₀) :: tl) k v = (k₀, v₀) :: dictInsert tl k v from by
          simp [dictInsert, h]]
        rw [mem_dictKeys_cons, mem_dictKeys_cons, ih]
        tauto

theorem dictLookup_eq_none_of_not_mem_keys {β : Type} (m : List (String × β))
    (k : String) (h : k ∉ dictKeys m) : dictLookup m k = none := by
  induction m with
  | nil => rfl
  | cons hd tl ih =>
      obtain ⟨k₀, v₀⟩ := hd
      rw [mem_dictKeys_cons] at h
      push_neg at h
      have hne : ¬k₀ = k := fun hh => h.1 hh.symm
      simp [dictLookup, hne, ih h.2]

theorem length_dictInsert_new {β : Type} (m : List (String × β)) (k : String) (v : β)
    (h : k ∉ dictKeys m) : (dictInsert m k v).length = m.length + 1 := by
  induction m with
  | nil => rfl
  | cons hd tl ih =>
      obtain ⟨k₀, v₀⟩ := hd
      rw [mem_dictKeys_cons] at h
      push_neg at h
      have hne : ¬k₀ = k := fun hh => h.1 hh.symm
      simp [dictInsert, hne, ih h.2]

/-! ### Pixel grids.

A raster position is a `(row, column)` pair; a binary raster is the list of
its foreground positions inside a `rows × cols` grid.  4-connectivity
corresponds to `connectivity=1`, the default of both skimage morphology
functions used by the code. -/

abbrev Pos := Nat × Nat

def cellList (rows cols : Nat) : List Pos :=
  (List.range rows).flatMap (fun r => (List.range cols).map (fun c => (r, c)))

theorem mem_cellList (rows cols : Nat) (p : Pos) :
    p ∈ cellList rows cols ↔ p.1 < rows ∧ p.2 < cols := by
  obtain ⟨r, c⟩ := p
  simp [cellList]

/-- The 4-neighbourhood of a grid position. -/
def nbrs (p : Pos) : List Pos :=
  (if p.1 > 0 then [(p.1 - 1, p.2)] else []) ++
  (if p.2 > 0 then [(p.1, p.2 - 1)] else []) ++
  [(p.1 + 1, p.2), (p.1, p.2 + 1)]

/-- One breadth-first step list: frontier neighbours that belong to `S` and
are not yet visited. -/
def bfsNext (S visited frontier : List Pos) : List Pos :=
  ((frontier.flatMap nbrs).eraseDups).filter
    (fun q => decide (q ∈ S) && decide (q ∉ visited))

/-- Fuel-bounded breadth-first search inside the node set `S`. -/
def bfsAux (S : List Pos) : Nat → List Pos → List Pos → List Pos
  | 0, visited, _ => visited
  | fuel + 1, visited, frontier =>
      match bfsNext S visited frontier with
      | [] => visited
      | q :: qs => bfsAux S fuel (visited ++ q :: qs) (q :: qs)

/-- Connected component of `p` inside `S` (4-connectivity).  Fuel `S.length`
suffices because each round adds at least one unvisited member of `S`. -/
def component (S : List Pos) (p : Pos) : List Pos :=
  bfsAux S S.length [p] [p]

theorem bfsAux_subset (S : List Pos) :
    ∀ (fuel : Nat) (visited frontier : List Pos), visited ⊆ bfsAux S fuel visited frontier := by
  intro fuel
  induction fuel with
  | zero => intro visited frontier; exact fun _ h => h
  | succ n ih =>
      intro visited frontier q hq
      unfold bfsAux
      cases h : bfsNext S visited frontier with
      | nil => exact hq
      | cons a as => exact ih _ _ (List.mem_append_left _ hq)

theorem bfsAux_mem (S : List Pos) :
    ∀ (fuel : Nat) (visited frontier : List Pos) (q : Pos),
      q ∈ bfsAux S fuel visited frontier → q ∈ visited ∨ q ∈ S := by
  intro fuel
  induction fuel with
  | zero => intro visited frontier q hq; exact Or.inl hq
  | succ n ih =>
      intro visited frontier q hq
      unfold bfsAux at hq
      cases h : bfsNext S visited frontier with
      | nil => rw [h] at hq; exact Or.inl hq
      | cons a as =>
          rw [h] at hq
          rcases ih _ _ _ hq with hv | hs
          · rcases List.mem_append.mp hv with hv' | hnew
            · exact Or.inl hv'
            · right
              have : a :: as = bfsNext S visited frontier := h.symm
              rw [this] at hnew
              have := List.mem_filter.mp hnew
              have := this.2
              simp only [Bool.and_eq_true, decide_eq_true_eq] at this
              exact this.1
          · exact Or.inr hs

theorem self_mem_component (S : List Pos) (p : Pos) : p ∈ component S p :=
  bfsAux_subset S S.length [p] [p] (List.mem_singleton.mpr rfl)

theorem component_subset (S : List Pos) (p : Pos) (hp : p ∈ S) :
    ∀ q, q ∈ component S p → q ∈ S := by
  intro q hq
  rcases bfsAux_mem S S.length [p] [p] q hq with h | h
  · rwa [List.mem_singleton.mp h]
  · exact h

/-- Seeded component labelling: repeatedly take the first still-unlabelled
foreground position and extract its whole component (`scipy.ndimage.label`
as used by `remove_small_objects`). -/
def compsAux : Nat → List Pos → List (List Pos)
  | 0, _ => []
  | _ + 1, [] => []
  | fuel + 1, s :: rest =>
      let c := component (s :: rest) s
      c :: compsAux fuel ((s :: rest).filter (fun q => !decide (q ∈ c)))

def components (S : List Pos) : List (List Pos) := compsAux S.length S

theorem compsAux_sub :
    ∀ (fuel : Nat) (cur : List Pos) (c : List Pos), c ∈ compsAux fuel cur → c ⊆ cur := by
  intro fuel
  induction fuel with
  | zero => intro cur c hc; simp [compsAux] at hc
  | succ n ih =>
      intro cur c hc
      match cur with
      | [] => simp [compsAux] at hc
      | s :: rest =>
          simp only [compsAux, List.mem_cons] at hc
          rcases hc with hc | hc
          · subst hc; exact fun q hq => component_subset _ s (List.mem_cons_self s rest) q hq
          · intro q hq
            have := ih _ _ hc hq
            exact (List.mem_filter.mp this).1

theorem length_filter_lt_of_mem_not {α : Type} [DecidableEq α] (l : List α)
    (p : α → Bool) (a : α) (ha : a ∈ l) (hpa : p a = false) :
    (l.filter p).length < l.length := by
  induction l with
  | nil => cases ha
  | cons hd tl ih =>
      rcases List.mem_cons.mp ha with h | h
      · subst h
        simp only [List.filter_cons, hpa]
        exact Nat.lt_succ_of_le (List.length_filter_le p tl)
      · by_cases hp : p hd
        · simpa [List.filter_cons, hp] using Nat.succ_lt_succ (ih h)
        · simp only [List.filter_cons, Bool.not_eq_true] at hp
          simp only [List.filter_cons, hp]
          exact Nat.lt_succ_of_lt (ih h)

theorem compsAux_cover :
    ∀ (fuel : Nat) (cur : List Pos), cur.length ≤ fuel →
      ∀ q, q ∈ cur ↔ ∃ c ∈ compsAux fuel cur, q ∈ c := by
  intro fuel
  induction fuel with
  | zero =>
      intro cur hlen q
      have : cur = [] := List.eq_nil_of_length_eq_zero (Nat.le_zero.mp hlen)
      subst this; simp [compsAux]
  | succ n ih =>
      intro cur hlen q
      match cur with
      | [] => simp [compsAux]
      | s :: rest =>
          constructor
          · intro hq
            by_cases hc : q ∈ component (s :: rest) s
            · exact ⟨component (s :: rest) s, by simp [compsAux], hc⟩
            · have hmemf : q ∈ (s :: rest).filter
                  (fun r => !decide (r ∈ component (s :: rest) s)) :=
                List.mem_filter.mpr ⟨hq, by simpa using hc⟩
              have hlt : ((s :: rest).filter
                  (fun r => !decide (r ∈ component (s :: rest) s))).length < (s :: rest).length := by
                refine length_filter_lt_of_mem_not _ _ s (List.mem_cons_self s rest) ?_
                simp [self_mem_component]
              have hlen' : ((s :: rest).filter
                  (fun r => !decide (r ∈ component (s :: rest) s))).length ≤ n :=
                Nat.le_of_lt_succ (Nat.lt_of_lt_of_le hlt hlen)
              rcases (ih _ hlen' q).mp hmemf with ⟨c, hcmem, hqc⟩
              exact ⟨c, by simp [compsAux, hcmem], hqc⟩
          · rintro ⟨c, hcmem, hqc⟩
            exact compsAux_sub (n + 1) (s :: rest) c hcmem hqc

theorem compsAux_disjoint :
    ∀ (fuel : Nat) (cur : List Pos) (c₁ c₂ : List Pos) (q : Pos),
      c₁ ∈ compsAux fuel cur → c₂ ∈ compsAux fuel cur → q ∈ c₁ → q ∈ c₂ → c₁ = c₂ := by
  intro fuel
  induction fuel with
  | zero => intro cur c₁ c₂ q h₁; simp [compsAux] at h₁
  | succ n ih =>
      intro cur c₁ c₂ q h₁ h₂ hq₁ hq₂
      match cur with
      | [] => simp [compsAux] at h₁
      | s :: rest =>
          simp only [compsAux, List.mem_cons] at h₁ h₂
          rcases h₁ with h₁ | h₁ <;> rcases h₂ with h₂ | h₂
          · rw [h₁, h₂]
          · exfalso
            have hsub := compsAux_sub n _ c₂ h₂
            have := List.mem_filter.mp (hsub hq₂)
            rw [← h₁] at this
            have := this.2
            simp only [Bool.not_eq_true', decide_eq_false_iff_not] at this
            exact this hq₁
          · exfalso
            have hsub := compsAux_sub n _ c₁ h₁
            have := List.mem_filter.mp (hsub hq₁)
            rw [← h₂] at this
            have := this.2
            simp only [Bool.not_eq_true', decide_eq_false_iff_not] at this
            exact this hq₂
          · exact ih _ _ _ _ h₁ h₂ hq₁ hq₂

theorem components_sub (S : List Pos) (c : List Pos) (hc : c ∈ components S) : c ⊆ S :=
  compsAux_sub S.length S c hc

theorem components_cover (S : List Pos) (q : Pos) :
    q ∈ S ↔ ∃ c ∈ components S, q ∈ c :=
  compsAux_cover S.length S (Nat.le_refl _) q

theorem components_disjoint (S : List Pos) (c₁ c₂ : List Pos) (q : Pos)
    (h₁ : c₁ ∈ components S) (h₂ : c₂ ∈ components S) (hq₁ : q ∈ c₁) (hq₂ : q ∈ c₂) :
    c₁ = c₂ :=
  compsAux_disjoint S.length S c₁ c₂ q h₁ h₂ hq₁ hq₂

/-! ### The mask compositor (`process_single_image`, lines 77-85).

`body_array = np.array(body_mask) > 127`, `details_array` likewise,
`combined_array = np.logical_or(...)`,
`cleaned_array = morphology.remove_small_objects(combined_array, min_size=250)`,
`filled_array = morphology.remove_small_holes(cleaned_array, area_threshold=150)`,
`smoothed_array = gaussian_filter(filled_array.astype(float), sigma=1)`,
`final_mask = Image.fromarray((smoothed_array * 255).astype(np.uint8))`.

A grayscale image is its pixel matrix; the smoothing step is an opaque
function on rational matrices (scipy computes it in floating point). -/

structure GrayImage where
  rows : Nat
  cols : Nat
  px : List (List Nat)
deriving DecidableEq

def pxAt (m : GrayImage) (p : Pos) : Nat := (m.px.getD p.1 []).getD p.2 0

/-- `np.logical_or(np.array(body_mask) > 127, np.array(details_mask) > 127)`
as the list of foreground positions. -/
def combinedFg (body detail : GrayImage) : List Pos :=
  (cellList body.rows body.cols).filter
    (fun p => decide (127 < pxAt body p) || decide (127 < pxAt detail p))

/-- `skimage.morphology.remove_small_objects(ar, min_size)`: keep exactly the
connected components having at least `min_size` pixels. -/
def remove_small_objects (minSize : Nat) (S : List Pos) : List Pos :=
  ((components S).filter (fun c => decide (minSize ≤ c.length))).flatten

def complementIn (rows cols : Nat) (S : List Pos) : List Pos :=
  (cellList rows cols).filter (fun p => !decide (p ∈ S))

/-- `skimage.morphology.remove_small_holes(ar, area_threshold)`: complement,
`remove_small_objects` with `min_size = area_threshold + 1`, complement —
so background components of area up to and including `area_threshold` are
filled. -/
def remove_small_holes (rows cols areaThreshold : Nat) (S : List Pos) : List Pos :=
  complementIn rows cols (remove_small_objects (areaThreshold + 1) (complementIn rows cols S))

/-- `filled_array.astype(float)`. -/
def toFloatGrid (rows cols : Nat) (S : List Pos) : List (List ℚ) :=
  (List.range rows).map (fun r =>
    (List.range cols).map (fun c => if (r, c) ∈ S then (1 : ℚ) else 0))

/-- `(smoothed_array * 255).astype(np.uint8)` for one pixel: multiply by 255
and apply the C-style float-to-uint8 conversion (truncate toward zero, wrap
modulo 2^8).  `q * 255` truncated toward zero is `(q.num * 255).tdiv q.den`
since `Int.tdiv` rounds toward zero. -/
def toUint8 (q : ℚ) : Nat := (((q.num * 255).tdiv (q.den : Int)) % 256).toNat

/-- `(smoothed_array * 255).astype(np.uint8)`. -/
def quantizeGrid (g : List (List ℚ)) : List (List Nat) :=
  g.map (fun row => row.map toUint8)

/-- The compositor exactly as the code chains it (threshold at 127, OR,
remove objects below 250 px, `remove_small_holes` with threshold 150,
Gaussian smoothing `gauss` on the float cast, re-quantize). -/
def compose_masks (gauss : List (List ℚ) → List (List ℚ)) (body detail : GrayImage) :
    List (List Nat) :=
  let combined := combinedFg body detail
  let cleaned := remove_small_objects 250 combined
  let filled := remove_small_holes body.rows body.cols 150 cleaned
  quantizeGrid (gauss (toFloatGrid body.rows body.cols filled))

/-- Modelled from the spec: "remove connected foreground components smaller
than 250 pixels" — drop exactly the components whose area is `< minSize`. -/
def specRemoveSmallComponents (minSize : Nat) (S : List Pos) : List Pos :=
  ((components S).filter (fun c => !decide (c.length < minSize))).flatten

/-- Modelled from the spec: "fill background holes smaller than 150 pixels" —
add the connected components of the background whose area is `< thr`. -/
def specFillHolesBelow (rows cols thr : Nat) (S : List Pos) : List Pos :=
  S ++ ((components (complementIn rows cols S)).filter
    (fun c => decide (c.length < thr))).flatten

/-- The amended fill step: background components of area at most `thr` are
filled (this is what `remove_small_holes(area_threshold=thr)` does). -/
def specFillHolesAtMost (rows cols thr : Nat) (S : List Pos) : List Pos :=
  S ++ ((components (complementIn rows cols S)).filter
    (fun c => decide (c.length ≤ thr))).flatten

/-- The compositor as the claim words it, with holes *smaller than* 150
pixels filled. -/
def spec_compose_masks (gauss : List (List ℚ) → List (List ℚ)) (body detail : GrayImage) :
    List (List Nat) :=
  quantizeGrid (gauss (toFloatGrid body.rows body.cols
    (specFillHolesBelow body.rows body.cols 150
      (specRemoveSmallComponents 250 (combinedFg body detail)))))

/-- The compositor as amended, with holes of *at most* 150 pixels filled. -/
def spec_compose_masks_le (gauss : List (List ℚ) → List (List ℚ)) (body detail : GrayImage) :
    List (List Nat) :=
  quantizeGrid (gauss (toFloatGrid body.rows body.cols
    (specFillHolesAtMost body.rows body.cols 150
      (specRemoveSmallComponents 250 (combinedFg body detail)))))

/-- An all-background 15 × 10 probability mask: its background is one single
150-pixel connected region, exactly at the `area_threshold = 150` boundary. -/
def zeroMask : GrayImage := ⟨15, 10, List.replicate 15 (List.replicate 10 0)⟩

theorem mem_complementIn (rows cols : Nat) (S : List Pos) (p : Pos) :
    p ∈ complementIn rows cols S ↔ p ∈ cellList rows cols ∧ p ∉ S := by
  simp [complementIn, List.mem_filter]

theorem complementIn_subset (rows cols : Nat) (S : List Pos) :
    complementIn rows cols S ⊆ cellList rows cols := fun p hp =>
  ((mem_complementIn rows cols S p).mp hp).1

theorem mem_filtered_comps (C : List Pos) (f : List Pos → Bool) (q : Pos) :
    q ∈ ((components C).filter f).flatten ↔
      ∃ c, c ∈ components C ∧ f c = true ∧ q ∈ c := by
  rw [List.mem_flatten]
  constructor
  · rintro ⟨c, hc, hq⟩
    have := List.mem_filter.mp hc
    exact ⟨c, this.1, this.2, hq⟩
  · rintro ⟨c, hc, hf, hq⟩
    exact ⟨c, List.mem_filter.mpr ⟨hc, hf⟩, hq⟩

theorem mem_remove_small_objects (n : Nat) (S : List Pos) (q : Pos) :
    q ∈ remove_small_objects n S ↔
      ∃ c, c ∈ components S ∧ n ≤ c.length ∧ q ∈ c := by
  unfold remove_small_objects
  rw [mem_filtered_comps]
  simp only [decide_eq_true_eq]

theorem remove_small_objects_subset (n : Nat) (S : List Pos) :
    remove_small_objects n S ⊆ S := by
  intro q hq
  rcases (mem_remove_small_objects n S q).mp hq with ⟨c, hc, _, hqc⟩
  exact components_sub S c hc hqc

/-- The spec words for component removal ("drop components smaller than
`minSize`") and the skimage semantics ("keep components of size at least
`minSize`") coincide. -/
theorem specRemoveSmallComponents_eq (n : Nat) (S : List Pos) :
    specRemoveSmallComponents n S = remove_small_objects n S := by
  unfold specRemoveSmallComponents remove_small_objects
  congr 1
  refine List.filter_congr ?_
  intro c _
  by_cases h : c.length < n
  · simp [h, Nat.not_le.mpr h]
  · simp [h, Nat.not_lt.mp h]

/-- Pointwise description of the hole-filling composite actually run by the
code: a pixel survives iff it is a grid cell and lies in no background
component of size at least `t + 1`. -/
theorem mem_remove_small_holes (rows cols t : Nat) (S : List Pos) (p : Pos) :
    p ∈ remove_small_holes rows cols t S ↔
      p ∈ cellList rows cols ∧
        ¬∃ c, c ∈ components (complementIn rows cols S) ∧ t + 1 ≤ c.length ∧ p ∈ c := by
  unfold remove_small_holes
  rw [mem_complementIn]
  constructor
  · rintro ⟨hcell, hnot⟩
    exact ⟨hcell, fun h => hnot ((mem_remove_small_objects _ _ p).mpr h)⟩
  · rintro ⟨hcell, hnot⟩
    exact ⟨hcell, fun h => hnot ((mem_remove_small_objects _ _ p).mp h)⟩

/-- `remove_small_holes(ar, area_threshold=t)` agrees pixelwise with the
direct description "fill background holes of area at most `t`". -/
theorem remove_small_holes_eq_fill_at_most (rows cols t : Nat) (S : List Pos)
    (hS : S ⊆ cellList rows cols) (p : Pos) :
    p ∈ remove_small_holes rows cols t S ↔ p ∈ specFillHolesAtMost rows cols t S := by
  rw [mem_remove_small_holes]
  unfold specFillHolesAtMost
  rw [List.mem_append, mem_filtered_comps]
  simp only [decide_eq_true_eq]
  by_cases hpS : p ∈ S
  · constructor
    · intro _; exact Or.inl hpS
    · intro _
      refine ⟨hS hpS, ?_⟩
      rintro ⟨c, hc, _, hpc⟩
      have hpC := components_sub _ c hc hpc
      exact ((mem_complementIn rows cols S p).mp hpC).2 hpS
  · by_cases hcell : p ∈ cellList rows cols
    · have hpC : p ∈ complementIn rows cols S :=
        (mem_complementIn rows cols S p).mpr ⟨hcell, hpS⟩
      rcases (components_cover _ p).mp hpC with ⟨c₀, hc₀, hpc₀⟩
      by_cases hbig : t + 1 ≤ c₀.length
      · constructor
        · rintro ⟨_, hnot⟩
          exact absurd ⟨c₀, hc₀, hbig, hpc₀⟩ hnot
        · rintro (h | ⟨c₁, hc₁, hsmall, hpc₁⟩)
          · exact absurd h hpS
          · have : c₁ = c₀ := components_disjoint _ c₁ c₀ p hc₁ hc₀ hpc₁ hpc₀
            subst this
            exact absurd hbig (Nat.not_le.mpr (Nat.lt_succ_of_le hsmall))
      · constructor
        · intro _
          exact Or.inr ⟨c₀, hc₀, Nat.le_of_lt_succ (Nat.lt_succ_of_le
            (Nat.le_of_not_lt (fun hlt => hbig hlt))), hpc₀⟩
        · intro _
          refine ⟨hcell, ?_⟩
          rintro ⟨c₁, hc₁, hbig₁, hpc₁⟩
          have : c₁ = c₀ := components_disjoint _ c₁ c₀ p hc₁ hc₀ hpc₁ hpc₀
          subst this
          exact hbig hbig₁
    · constructor
      · rintro ⟨h, _⟩; exact absurd h hcell
      · rintro (h | ⟨c₁, hc₁, _, hpc₁⟩)
        · exact absurd h hpS
        · exact absurd (complementIn_subset rows cols S
            (components_sub _ c₁ hc₁ hpc₁)) hcell

theorem toFloatGrid_congr (rows cols : Nat) (X Y : List Pos)
    (h : ∀ p, p ∈ X ↔ p ∈ Y) : toFloatGrid rows cols X = toFloatGrid rows cols Y := by
  unfold toFloatGrid
  refine List.map_congr_left ?_
  intro r _
  refine List.map_congr_left ?_
  intro c _
  exact if_congr (h (r, c)) rfl rfl

theorem combinedFg_subset (body detail : GrayImage) :
    combinedFg body detail ⊆ cellList body.rows body.cols := fun _ hp =>
  (List.mem_filter.mp hp).1

set_option maxRecDepth 200000 in
set_option maxHeartbeats 4000000 in
/-- C2 counterexample: the compositor does not compute the claimed chain.
On two all-zero 15 × 10 masks the background is a single connected region of
exactly 150 pixels; `remove_small_holes(area_threshold=150)` fills it (the
output mask is all 255), while the claimed "fill background holes smaller
than 150 pixels" leaves it (all 0).  Exhibited with the identity smoothing
function. -/
theorem spec_c2_counterexample :
    ¬ (∀ (gauss : List (List ℚ) → List (List ℚ)) (body detail : GrayImage),
        compose_masks gauss body detail = spec_compose_masks gauss body detail) :=
  fun h => absurd (h id zeroMask zeroMask) (by decide)

/-- C2 (amended): the mask compositor computes exactly, in this fixed order:
threshold both masks at pixel value > 127, pixelwise logical OR, removal of
connected foreground components smaller than 250 pixels, filling of
background holes of at most 150 pixels, Gaussian smoothing with sigma = 1 of
the result cast to floating point, and re-quantization to 8 bits by
multiplying by 255. -/
theorem spec_c2 (gauss : List (List ℚ) → List (List ℚ)) (body detail : GrayImage) :
    compose_masks gauss body detail = spec_compose_masks_le gauss body detail := by
  have hS : remove_small_objects 250 (combinedFg body detail) ⊆
      cellList body.rows body.cols :=
    fun p hp => combinedFg_subset body detail
      (remove_small_objects_subset 250 (combinedFg body detail) hp)
  show quantizeGrid (gauss (toFloatGrid body.rows body.cols
      (remove_small_holes body.rows body.cols 150
        (remove_small_objects 250 (combinedFg body detail))))) = _
  unfold spec_compose_masks_le
  rw [specRemoveSmallComponents_eq]
  rw [toFloatGrid_congr body.rows body.cols _ _
    (remove_small_holes_eq_fill_at_most body.rows body.cols 150 _ hS)]

/-! ### The security validator (`middleware/security.py`,
`SecurityService.validate_file_security`).

File contents are byte lists.  `magic.from_buffer` is an oracle that may
fail (Python exception = `Except.error`); every other collaborator of the
validator is embedded concretely.  The bare `except` handlers of the scanners
return a safe default, and `bytes.decode` with ignored errors cannot raise, so
those internal failure points are already folded into the definitions. -/

abbrev Bytes := List Nat

def listStartsWith {α : Type} [DecidableEq α] : List α → List α → Bool
  | _, [] => true
  | [], _ :: _ => false
  | a :: l, b :: pat => decide (a = b) && listStartsWith l pat

def listHasSub {α : Type} [DecidableEq α] (l pat : List α) : Bool :=
  match l with
  | [] => pat.isEmpty
  | _ :: t => listStartsWith l pat || listHasSub t pat

def strCodes (s : String) : List Nat := s.toList.map Char.toNat

/-- Is `b` a UTF-8 continuation byte `10xxxxxx`? -/
def utf8Cont (b : Nat) : Bool := 128 ≤ b && b < 192

/-- UTF-8 decoding with ignored errors (CPython: ill-formed bytes are
skipped), producing the list of decoded code points.  Fuel-bounded; any fuel
of at least the list length gives the full decoding. -/
def utf8DecodeIgnoreAux : Nat → Bytes → List Nat
  | 0, _ => []
  | _ + 1, [] => []
  | f + 1, b :: rest =>
      if b < 128 then b :: utf8DecodeIgnoreAux f rest
      else if 194 ≤ b && b ≤ 223 then
        match rest with
        | c :: rest2 =>
            if utf8Cont c then
              ((b - 192) * 64 + (c - 128)) :: utf8DecodeIgnoreAux f rest2
            else utf8DecodeIgnoreAux f rest
        | [] => []
      else if 224 ≤ b && b ≤ 239 then
        match rest with
        | c :: rest2 =>
            if (b = 224 && (160 ≤ c && c < 192)) ||
               (225 ≤ b && b ≤ 236 && utf8Cont c) ||
               (b = 237 && (128 ≤ c && c < 160)) ||
               (238 ≤ b && utf8Cont c) then
              match rest2 with
              | d :: rest3 =>
                  if utf8Cont d then
                    ((b - 224) * 4096 + (c - 128) * 64 + (d - 128)) ::
                      utf8DecodeIgnoreAux f rest3
                  else utf8DecodeIgnoreAux f rest2
              | [] => []
            else utf8DecodeIgnoreAux f rest
        | [] => []
      else if 240 ≤ b && b ≤ 244 then
        match rest with
        | c :: rest2 =>
            if (b = 240 && (144 ≤ c && c < 192)) ||
               (241 ≤ b && b ≤ 243 && utf8Cont c) ||
               (b = 244 && (128 ≤ c && c < 144)) then
              match rest2 with
              | d :: rest3 =>
                  if utf8Cont d then
                    match rest3 with
                    | e :: rest4 =>
                        if utf8Cont e then
                          ((b - 240) * 262144 + (c - 128) * 4096 +
                            (d - 128) * 64 + (e - 128)) :: utf8DecodeIgnoreAux f rest4
                        else utf8DecodeIgnoreAux f rest3
                    | [] => []
                  else utf8DecodeIgnoreAux f rest2
              | [] => []
            else utf8DecodeIgnoreAux f rest
        | [] => []
      else utf8DecodeIgnoreAux f rest

def utf8DecodeIgnore (l : Bytes) : List Nat := utf8DecodeIgnoreAux l.length l

/-- `str.lower()` restricted to the ASCII range (the scanned patterns are
pure ASCII). -/
def lowerCode (cp : Nat) : Nat := if 65 ≤ cp && cp ≤ 90 then cp + 32 else cp

/-- `SecurityService._contains_suspicious_content`: decode the first 5 KB
with errors ignored, lowercase, and search the fixed dangerous substrings. -/
def contains_suspicious_content (content : Bytes) : Bool :=
  let txt := (utf8DecodeIgnore (content.take 5120)).map lowerCode
  [strCodes "<script", strCodes "javascript:", strCodes "vbscript:",
   strCodes "data:text/html", strCodes "eval(", strCodes "exec(",
   strCodes "system("].any (fun pat => listHasSub txt pat)

def afterLastSlash : List Char → List Char
  | [] => []
  | c :: rest =>
      if rest.contains (Char.ofNat 47) then afterLastSlash rest
      else if c = Char.ofNat 47 then rest
      else c :: rest

def fromLastDot : List Char → List Char
  | [] => []
  | c :: rest =>
      if rest.contains (Char.ofNat 46) then fromLastDot rest
      else if c = Char.ofNat 46 then c :: rest
      else []

/-- `os.path.splitext(filename)[1]`: the extension of the last path
component, starting at its last dot, with leading dots of the component not
counting as extension separators. -/
def pySplitextExt (filename : String) : String :=
  String.mk (fromLastDot ((afterLastSlash filename.toList).dropWhile
    (fun c => c = Char.ofNat 46)))

def asciiLowerChar (c : Char) : Char :=
  if 65 ≤ c.toNat && c.toNat ≤ 90 then Char.ofNat (c.toNat + 32) else c

/-- `SecurityService._guess_mime_type`. -/
def guess_mime_type (filename : String) : String :=
  let ext := String.mk ((pySplitextExt filename).toList.map asciiLowerChar)
  if ext = ".jpg" || ext = ".jpeg" then "image/jpeg"
  else if ext = ".png" then "image/png"
  else if ext = ".webp" then "image/webp"
  else if ext = ".bmp" then "image/bmp"
  else if ext = ".tiff" || ext = ".tif" then "image/tiff"
  else "application/octet-stream"

/-- The `allowed_image_types` set; Python iterates it in an unspecified
order, fixed here as written in the source. -/
def allowed_image_types : List String :=
  ["image/jpeg", "image/png", "image/webp", "image/bmp", "image/tiff"]

/-- `SecurityService._validate_image_headers`. -/
def validate_image_headers (content : Bytes) (mime : String) : Bool :=
  if content.length < 10 then false
  else
    let sigs : List Bytes :=
      if mime = "image/jpeg" then [[255, 216, 255]]
      else if mime = "image/png" then [[137, 80, 78, 71, 13, 10, 26, 10]]
      else if mime = "image/webp" then [strCodes "RIFF"]
      else if mime = "image/bmp" then [strCodes "BM"]
      else if mime = "image/tiff" then [[73, 73, 42, 0], [77, 77, 0, 42]]
      else []
    if sigs.isEmpty then true
    else if sigs.any (fun sig => listStartsWith content sig) then true
    else if mime = "image/webp" then
      listStartsWith content (strCodes "RIFF") &&
        listHasSub (content.take 20) (strCodes "WEBP")
    else false

/-- `SecurityService._contains_dangerous_metadata`: byte-level search in the
first 10 KB. -/
def contains_dangerous_metadata (content : Bytes) : Bool :=
  let chk := content.take 10240
  [strCodes "<?php", strCodes "<script>", strCodes "javascript:",
   strCodes "vbscript:", strCodes "data:text/html"].any
    (fun pat => listHasSub chk pat)

def max_file_size : Nat := 50 * 1024 * 1024

/-- The size-rejection text; Python renders `self.max_file_size/(1024*1024)`
with float division, hence `50.0`. -/
def size_message : String := "File too large. Maximum size: 50.0MB"

def invalid_type_message (mime : String) : String :=
  "Invalid file type: " ++ mime ++ ". Allowed: " ++
    String.intercalate ", " allowed_image_types

/-- Body of the outer `try` of `validate_file_security`.  The only modelled
raise site, `magic.from_buffer`, is guarded by its own inner handler that
falls back to `_guess_mime_type`, so the body always returns `Except.ok`;
the outer handler would map an escaping error to
`(false, "File validation failed")`. -/
def validate_file_security_body (magic : Bytes → Except String String)
    (content : Bytes) (filename : String) : Except String (Bool × String) :=
  if content.length > max_file_size then .ok (false, size_message)
  else
    let mime := match magic content with
      | .ok m => m
      | .error _ => guess_mime_type filename
    if !(allowed_image_types.contains mime) then .ok (false, invalid_type_message mime)
    else if contains_suspicious_content content then
      .ok (false, "Suspicious content detected in file")
    else if !(validate_image_headers content mime) then
      .ok (false, "Invalid or corrupted image file")
    else if contains_dangerous_metadata content then
      .ok (false, "Potentially dangerous content detected")
    else .ok (true, "File validation passed")

/-- `SecurityService.validate_file_security`: the outer handler. -/
def validate_file_security (magic : Bytes → Except String String)
    (content : Bytes) (filename : String) : Bool × String :=
  match validate_file_security_body magic content filename with
  | .ok r => r
  | .error _ => (false, "File validation failed")

/-- A 10-byte well-formed PNG stub: the 8-byte PNG signature and two null
bytes (the header check requires at least 10 bytes). -/
def pngStub : Bytes := [137, 80, 78, 71, 13, 10, 26, 10, 0, 0]

/-- A MIME oracle whose sniffing always raises. -/
def magicBoom : Bytes → Except String String := fun _ => .error "magic failure"

/-- A MIME oracle that always reports `image/png`. -/
def magicPng : Bytes → Except String String := fun _ => .ok "image/png"

/-- C10 counterexample: an exception in MIME sniffing is not converted to
`(False, "File validation failed")` — the inner handler falls back to
extension-based guessing, and a valid PNG then passes validation. -/
theorem spec_c10_counterexample :
    ¬ (∀ (magic : Bytes → Except String String) (content : Bytes) (fn err : String),
        magic content = Except.error err →
        validate_file_security magic content fn = (false, "File validation failed")) :=
  fun h => absurd (h magicBoom pngStub "a.png" "magic failure" rfl) (by decide)

theorem validate_body_is_ok (magic : Bytes → Except String String)
    (content : Bytes) (fn : String) :
    ∃ r, validate_file_security_body magic content fn = Except.ok r := by
  unfold validate_file_security_body
  split
  · exact ⟨_, rfl⟩
  · cases hm : magic content <;> dsimp only <;> (repeat' split) <;> exact ⟨_, rfl⟩

/-- C10 (amended): `validate_file_security` always returns a pair and never
raises — its try body cannot escape with an exception, because the one
modelled raise site (MIME sniffing) is caught by an inner handler that falls
back to extension-based type guessing, and the content scanners swallow
their own errors; an exception escaping the body would be converted to
`(False, "File validation failed")` by the outer handler.  Inputs longer
than 50*1024*1024 bytes are rejected with `ok = False` regardless of
content, filename, or the sniffing oracle. -/
theorem spec_c10 (magic : Bytes → Except String String) (content : Bytes) (fn : String) :
    validate_file_security_body magic content fn =
        Except.ok (validate_file_security magic content fn)
      ∧ (content.length > max_file_size →
          validate_file_security magic content fn = (false, size_message))
      ∧ (∀ err, magic content = Except.error err →
          validate_file_security magic content fn =
            validate_file_security (fun _ => Except.ok (guess_mime_type fn)) content fn) := by
  refine ⟨?_, ?_, ?_⟩
  · obtain ⟨r, hr⟩ := validate_body_is_ok magic content fn
    rw [hr]
    unfold validate_file_security
    rw [hr]
  · intro h
    unfold validate_file_security validate_file_security_body
    simp [h]
  · intro err h
    unfold validate_file_security validate_file_security_body
    rw [h]

/-- C10 witness: the amended theorem applied to a raising oracle on a valid
10-byte PNG stub, and to an oversized input. -/
theorem spec_c10_witness :
    validate_file_security_body magicBoom pngStub "a.png" =
        Except.ok (validate_file_security magicBoom pngStub "a.png")
      ∧ (List.replicate (max_file_size + 1) 0).length > max_file_size
      ∧ validate_file_security magicPng (List.replicate (max_file_size + 1) 0) "a.png" =
          (false, size_message)
      ∧ magicBoom pngStub = Except.error "magic failure"
      ∧ validate_file_security magicBoom pngStub "a.png" =
          validate_file_security (fun _ => Except.ok (guess_mime_type "a.png"))
            pngStub "a.png" := by
  have hlen : (List.replicate (max_file_size + 1) (0 : Nat)).length > max_file_size := by
    simp
  refine ⟨(spec_c10 magicBoom pngStub "a.png").1, hlen,
    (spec_c10 magicPng (List.replicate (max_file_size + 1) 0) "a.png").2.1 hlen,
    rfl,
    (spec_c10 magicBoom pngStub "a.png").2.2 "magic failure" rfl⟩

/-! ### The multilingual message catalog (`core/messages.py`), restricted to
the keys the image-processing routes use.  `Messages.get` catches `KeyError`
from `str.format` but would let a `ValueError` (malformed template)
propagate, so the embedding returns `Except`; the templates of the catalog are
all well formed, which the lemmas below establish. -/

def lbraceCh : Char := Char.ofNat 123

def rbraceCh : Char := Char.ofNat 125

def pyQuote (s : String) : String :=
  String.singleton (Char.ofNat 39) ++ s ++ String.singleton (Char.ofNat 39)

inductive FormatResult where
  | ok (out : List Char)
  | keyError (name : String)
  | valueError
deriving DecidableEq

def consRes (c : Char) : FormatResult → FormatResult
  | .ok s => .ok (c :: s)
  | r => r

def prependRes (v : List Char) : FormatResult → FormatResult
  | .ok s => .ok (v ++ s)
  | r => r

/-- `str.format(**kwargs)` on templates using only plain named fields:
`\x7bname\x7d` is replaced by the named argument (`KeyError` when absent),
doubled braces are literals, and stray braces raise `ValueError`. -/
def pyFormatChars (args : List (String × String)) : Nat → List Char → FormatResult
  | 0, _ => .valueError
  | _ + 1, [] => .ok []
  | f + 1, c :: rest =>
      if c = lbraceCh then
        match rest with
        | [] => .valueError
        | d :: rest2 =>
            if d = lbraceCh then consRes c (pyFormatChars args f rest2)
            else
              let name := rest.takeWhile (fun e => !(e = rbraceCh))
              match rest.dropWhile (fun e => !(e = rbraceCh)) with
              | [] => .valueError
              | _ :: rest3 =>
                  match dictLookup args (String.mk name) with
                  | some v => prependRes v.toList (pyFormatChars args f rest3)
                  | none => .keyError (String.mk name)
      else if c = rbraceCh then
        match rest with
        | [] => .valueError
        | d :: rest2 =>
            if d = rbraceCh then consRes c (pyFormatChars args f rest2)
            else .valueError
      else consRes c (pyFormatChars args f rest)

def pyFormatStr (template : String) (args : List (String × String)) : FormatResult :=
  pyFormatChars args (template.toList.length + 1) template.toList

def messageCatalog : List (String × List (String × String)) :=
  [("no_files_provided",
    [("tr", "İşlenecek dosya bulunamadı"),
     ("en", "No files provided for processing"),
     ("es", "No se proporcionaron archivos para procesar")]),
   ("rate_limit_exceeded",
    [("tr", "İstek limitini aştınız. Lütfen daha sonra tekrar deneyin"),
     ("en", "Rate limit exceeded. Please try again later"),
     ("es", "Límite de solicitudes excedido. Por favor, inténtelo más tarde")]),
   ("image_processing_completed",
    [("tr", "Görüntü işleme tamamlandı"),
     ("en", "Image processing completed"),
     ("es", "Procesamiento de imagen completado")]),
   ("batch_processing_completed",
    [("tr", "Toplu işlem tamamlandı. Başarılı: {success_count}, Hatalı: {error_count}"),
     ("en", "Batch processing completed. Successful: {success_count}, Failed: {error_count}"),
     ("es", "Procesamiento por lotes completado. Exitosos: {success_count}, Fallidos: {error_count}")]),
   ("image_processing_error",
    [("tr", "Görüntü işlenirken hata oluştu: {error}"),
     ("en", "Error occurred while processing image: {error}"),
     ("es", "Error al procesar la imagen: {error}")]),
   ("file_processing_error",
    [("tr", "Dosya işlenirken hata oluştu: {filename}"),
     ("en", "Error processing file: {filename}"),
     ("es", "Error al procesar el archivo: {filename}")])]

theorem dictLookup_mem {β : Type} (m : List (String × β)) (k : String) (v : β)
    (h : dictLookup m k = some v) : (k, v) ∈ m := by
  induction m with
  | nil => simp [dictLookup] at h
  | cons hd tl ih =>
      obtain ⟨k₀, v₀⟩ := hd
      by_cases hk : k₀ = k
      · subst hk
        simp [dictLookup] at h
        simp [h]
      · simp [dictLookup, hk] at h
        exact List.mem_cons_of_mem _ (ih h)

/-- The kinds of exception value the embedded routes raise or record. -/
inductive PyErr where
  | valueError (msg : String)
  | otherError (msg : String)
  | apiError (key : String) (httpStatus : Nat)
deriving DecidableEq

/-- Equality of embedded raise results is decidable. -/
instance instDecEqExcept {ε α : Type} [DecidableEq ε] [DecidableEq α] :
    DecidableEq (Except ε α) := fun a b =>
  match a, b with
  | .ok x, .ok y =>
      if h : x = y then .isTrue (by rw [h]) else .isFalse (by simp [h])
  | .ok _, .error _ => .isFalse (by simp)
  | .error _, .ok _ => .isFalse (by simp)
  | .error x, .error y =>
      if h : x = y then .isTrue (by rw [h]) else .isFalse (by simp [h])

/-- Python `str(e)`. -/
def errStr : PyErr → String
  | .valueError msg => msg
  | .otherError msg => msg
  | .apiError key _ => key

/-- `Messages.get`: unknown key and missing parameters produce fallback
strings; an absent language falls back to Turkish; a malformed template
would raise. -/
def messages_get (key lang : String) (args : List (String × String)) :
    Except PyErr String :=
  match dictLookup messageCatalog key with
  | none => .ok ("Message key " ++ pyQuote key ++ " not found")
  | some langs =>
      let lang2 := if (dictLookup langs lang).isSome then lang else "tr"
      let template := (dictLookup langs lang2).getD ""
      match pyFormatStr template args with
      | .ok out => .ok (String.mk out)
      | .keyError name => .ok ("Missing parameter " ++ pyQuote name ++
          " for message " ++ pyQuote key)
      | .valueError => .error (.otherError "Single brace encountered in format string")

/-- The language table of `file_processing_error`. -/
def fpeLangs : List (String × String) :=
  [("tr", "Dosya işlenirken hata oluştu: {filename}"),
   ("en", "Error processing file: {filename}"),
   ("es", "Error al procesar el archivo: {filename}")]

/-- The language table of `batch_processing_completed`. -/
def bpcLangs : List (String × String) :=
  [("tr", "Toplu işlem tamamlandı. Başarılı: {success_count}, Hatalı: {error_count}"),
   ("en", "Batch processing completed. Successful: {success_count}, Failed: {error_count}"),
   ("es", "Procesamiento por lotes completado. Exitosos: {success_count}, Fallidos: {error_count}")]

/-- `Messages.get("file_processing_error", lang, filename=...)` cannot
raise, whatever the language: every template of the key is well formed. -/
theorem messages_get_file_processing_ok (lang v : String) :
    ∃ m, messages_get "file_processing_error" lang [("filename", v)] = Except.ok m := by
  unfold messages_get
  rw [show dictLookup messageCatalog "file_processing_error" = some fpeLangs from rfl]
  dsimp only
  cases ht : dictLookup fpeLangs
      (if (dictLookup fpeLangs lang).isSome then lang else "tr") with
  | none => exact ⟨_, rfl⟩
  | some tmpl =>
      have hmem := dictLookup_mem _ _ _ ht
      simp only [fpeLangs, List.mem_cons, List.not_mem_nil, or_false,
        Prod.mk.injEq] at hmem
      rcases hmem with ⟨_, h⟩ | ⟨_, h⟩ | ⟨_, h⟩ <;> subst h <;> exact ⟨_, rfl⟩

/-- `Messages.get("batch_processing_completed", lang, success_count=...,
error_count=...)` cannot raise either. -/
theorem messages_get_batch_completed_ok (lang a b : String) :
    ∃ m, messages_get "batch_processing_completed" lang
      [("success_count", a), ("error_count", b)] = Except.ok m := by
  unfold messages_get
  rw [show dictLookup messageCatalog "batch_processing_completed" = some bpcLangs from rfl]
  dsimp only
  cases ht : dictLookup bpcLangs
      (if (dictLookup bpcLangs lang).isSome then lang else "tr") with
  | none => exact ⟨_, rfl⟩
  | some tmpl =>
      have hmem := dictLookup_mem _ _ _ ht
      simp only [bpcLangs, List.mem_cons, List.not_mem_nil, or_false,
        Prod.mk.injEq] at hmem
      rcases hmem with ⟨_, h⟩ | ⟨_, h⟩ | ⟨_, h⟩ <;> subst h <;> exact ⟨_, rfl⟩

/-! ### The single-image pipeline (`process_single_image`,
`apply_mask_to_image`) and the batch route (`remove_background_batch`).

The rembg session, PIL decode/encode, the Gaussian filter and base64 are
oracle fields of `Env`.  `remove(..., only_mask=True)` plus
`Image.open(...).convert("L")` is modelled as one oracle call returning a
grayscale image; the session-call log records every invocation with its
alpha-matting parameters. -/

inductive SessionCall where
  | mask (input : Bytes)
  | maskMatting (input : Bytes) (fg bg erode : Nat)
deriving DecidableEq

structure PILImage where
  width : Nat
  height : Nat
  mode : String
  rgb : List (List (Nat × Nat × Nat))
  alpha : List (List Nat)
deriving DecidableEq

structure Env where
  session : SessionCall → GrayImage
  decodeImage : Bytes → Option PILImage
  encodePNG : PILImage → Bytes
  gauss : List (List ℚ) → List (List ℚ)
  magic : Bytes → Except String String
  b64encode : Bytes → String

structure FileInput where
  filename : String
  content : Bytes
deriving DecidableEq

/-- `convert("RGBA")` when the mode differs: dimensions and colour data are
untouched; a fully opaque alpha band is attached. -/
def convertRGBA (img : PILImage) : PILImage :=
  if img.mode = "RGBA" then img
  else { img with
         mode := "RGBA",
         alpha := List.replicate img.height (List.replicate img.width 255) }

/-- `putalpha`: replace the alpha band; Pillow raises `ValueError` when the
size of the band differs from that of the image. -/
def putalpha (img : PILImage) (band : GrayImage) : Except PyErr PILImage :=
  if band.rows = img.height ∧ band.cols = img.width then
    .ok { img with alpha := band.px }
  else .error (.valueError "images do not match")

/-- `apply_mask_to_image` (lines 26-41): decode, ensure RGBA, replace the
alpha channel by the L channel of the mask (the mask is already single-channel,
so `convert("L")` is the identity on it), encode as PNG. -/
def apply_mask_to_image (env : Env) (original : Bytes) (mask : GrayImage) :
    Except PyErr Bytes :=
  match env.decodeImage original with
  | none => .error (.otherError "cannot identify image file")
  | some img =>
      match putalpha (convertRGBA img) mask with
      | .ok outImg => .ok (env.encodePNG outImg)
      | .error e => .error e

/-- The final mask built by the compositor, as the `Image.fromarray` result
(same extent as the array of the body mask). -/
def composed_mask (env : Env) (body detail : GrayImage) : GrayImage :=
  ⟨body.rows, body.cols, compose_masks env.gauss body detail⟩

/-- `process_single_image` (lines 43-99): validate, run the session twice
(body mask without matting, detail mask with matting parameters 200/20/10),
compose, apply.  The second component is the list of session invocations
this file caused, in order. -/
def process_single_image (env : Env) (file : FileInput) :
    Except PyErr Bytes × List SessionCall :=
  match validate_file_security env.magic file.content file.filename with
  | (false, msg) => (.error (.valueError msg), [])
  | (true, _) =>
      let bodyMask := env.session (SessionCall.mask file.content)
      let detailMask := env.session (SessionCall.maskMatting file.content 200 20 10)
      (apply_mask_to_image env file.content (composed_mask env bodyMask detailMask),
       [SessionCall.mask file.content, SessionCall.maskMatting file.content 200 20 10])

structure SuccessEntry where
  data : String
  format : String
deriving DecidableEq

structure ErrorEntry where
  error : String
  message : String
deriving DecidableEq

structure BatchResults where
  success : List (String × SuccessEntry)
  errors : List (String × ErrorEntry)
deriving DecidableEq

/-- `process_and_store` (lines 244-262): per-file boundary.  Every exception
of `process_single_image` is caught and recorded under the name of the file; the
handler itself can only raise through a malformed message template (which
the fixed catalog never produces). -/
def process_and_store (env : Env) (lang : String) (results : BatchResults)
    (file : FileInput) : Except PyErr BatchResults × List SessionCall :=
  match process_single_image env file with
  | (.ok processed, calls) =>
      (.ok { results with
          success := dictInsert results.success file.filename
            ⟨env.b64encode processed, "PNG"⟩ }, calls)
  | (.error e, calls) =>
      match messages_get "file_processing_error" lang [("filename", file.filename)] with
      | .ok errMsg =>
          (.ok { results with
              errors := dictInsert results.errors file.filename
                ⟨errStr e, errMsg⟩ }, calls)
      | .error e2 => (.error e2, calls)

/-- One step of the gather fold: a previously escaped exception short
circuits, otherwise the next file is processed and its outcome and session
calls accumulated. -/
def batch_step (env : Env) (lang : String)
    (acc : Except PyErr BatchResults × List SessionCall) (file : FileInput) :
    Except PyErr BatchResults × List SessionCall :=
  match acc.1 with
  | .error e => (.error e, acc.2)
  | .ok results =>
      let pr := process_and_store env lang results file
      (pr.1, acc.2 ++ pr.2)

/-- `asyncio.gather` over `process_and_store`: the coroutine bodies are
synchronous (rembg blocks), so they run to completion in list order; an
exception escaping a per-file handler aborts the gather. -/
def run_files (env : Env) (lang : String) (files : List FileInput) :
    Except PyErr BatchResults × List SessionCall :=
  files.foldl (batch_step env lang) (.ok ⟨[], []⟩, [])

structure BatchResponse where
  data : BatchResults
  message : String
  totalFiles : Nat
  successful : Nat
  failed : Nat
  language : String
deriving DecidableEq

/-- `remove_background_batch` (lines 198-318), timing and logging omitted:
empty input and rate limiting raise `APIError`s before any processing; any
non-`APIError` exception escaping the gather is wrapped as
`image_processing_error` / 500; otherwise the response carries the result
maps and statistics. -/
def remove_background_batch (env : Env) (rateLimited : Bool)
    (files : List FileInput) (lang : String) :
    Except PyErr BatchResponse × List SessionCall :=
  if files.isEmpty then (.error (.apiError "no_files_provided" 400), [])
  else if rateLimited then (.error (.apiError "rate_limit_exceeded" 429), [])
  else
    match run_files env lang files with
    | (.error _, calls) => (.error (.apiError "image_processing_error" 500), calls)
    | (.ok results, calls) =>
        match messages_get "batch_processing_completed" lang
            [("success_count", toString results.success.length),
             ("error_count", toString results.errors.length)] with
        | .error _ => (.error (.apiError "image_processing_error" 500), calls)
        | .ok msg =>
            (.ok { data := results, message := msg,
                   totalFiles := files.length,
                   successful := results.success.length,
                   failed := results.errors.length,
                   language := lang }, calls)

/-! ### Concrete environment and files used by witnesses and
counterexamples. -/

def env0 : Env :=
  { session := fun _ => ⟨1, 1, [[200]]⟩,
    decodeImage := fun _ => some ⟨1, 1, "RGB", [[(10, 20, 30)]], [[255]]⟩,
    encodePNG := fun _ => [1, 2, 3],
    gauss := id,
    magic := magicPng,
    b64encode := fun _ => "QUJD" }

/-- A file that passes every security check. -/
def fileGood : FileInput := ⟨"a.png", pngStub⟩

/-- A file rejected by the suspicious-content scan. -/
def fileBad : FileInput := ⟨"b.png", pngStub ++ strCodes "<script x"⟩

/-- Same filename as `fileBadA2`, rejected by the suspicious-content scan. -/
def fileBadA1 : FileInput := ⟨"a.png", pngStub ++ strCodes "<script x"⟩

/-- Same filename as `fileBadA1`, rejected by the metadata scan. -/
def fileBadA2 : FileInput := ⟨"a.png", pngStub ++ strCodes "<?php x"⟩

/-- A file of the same name as `fileGood2bis`, passing validation. -/
def fileGood2 : FileInput := ⟨"c.png", pngStub ++ [1]⟩

/-- A second distinct file with the same filename as `fileGood2`. -/
def fileGood2bis : FileInput := ⟨"c.png", pngStub ++ [2]⟩

/-- C4: an empty file list makes the batch route raise the
`no_files_provided` client error with HTTP status 400 before any per-file
work, the segmentation session being invoked zero times. -/
theorem spec_c4 (env : Env) (rateLimited : Bool) (lang : String) :
    remove_background_batch env rateLimited [] lang =
      (Except.error (PyErr.apiError "no_files_provided" 400), ([] : List SessionCall)) :=
  rfl

/-- C5: a file failing security validation gets a failure entry carrying the
validation message, and causes zero session invocations. -/
theorem spec_c5 (env : Env) (lang : String) (results : BatchResults)
    (file : FileInput) (msg : String)
    (hval : validate_file_security env.magic file.content file.filename = (false, msg)) :
    ∃ failMsg,
      process_and_store env lang results file =
        (Except.ok (⟨results.success,
            dictInsert results.errors file.filename ⟨msg, failMsg⟩⟩ : BatchResults),
         ([] : List SessionCall)) := by
  obtain ⟨m, hm⟩ := messages_get_file_processing_ok lang file.filename
  refine ⟨m, ?_⟩
  simp only [process_and_store, process_single_image, hval, hm, errStr]

/-- C5 witness: in `env0`, the embedded-script file is rejected with the
suspicious-content message and recorded without any session call. -/
theorem spec_c5_witness :
    validate_file_security env0.magic fileBad.content fileBad.filename =
        (false, "Suspicious content detected in file")
      ∧ ∃ failMsg,
          process_and_store env0 "en" ⟨[], []⟩ fileBad =
            (Except.ok (⟨[], dictInsert [] fileBad.filename
                ⟨"Suspicious content detected in file", failMsg⟩⟩ : BatchResults),
             ([] : List SessionCall)) :=
  ⟨by decide,
   spec_c5 env0 "en" ⟨[], []⟩ fileBad "Suspicious content detected in file" (by decide)⟩

/-- C6: a file passing validation invokes the session exactly twice — once
without alpha matting, once with matting thresholds 200/20 and erosion 10 —
in that order. -/
theorem spec_c6 (env : Env) (file : FileInput) (vmsg : String)
    (hval : validate_file_security env.magic file.content file.filename = (true, vmsg)) :
    (process_single_image env file).2 =
      [SessionCall.mask file.content,
       SessionCall.maskMatting file.content 200 20 10] := by
  unfold process_single_image
  rw [hval]

/-- C6 witness: the PNG stub passes validation in `env0` and produces
exactly the two session calls. -/
theorem spec_c6_witness :
    validate_file_security env0.magic fileGood.content fileGood.filename =
        (true, "File validation passed")
      ∧ (process_single_image env0 fileGood).2 =
          [SessionCall.mask fileGood.content,
           SessionCall.maskMatting fileGood.content 200 20 10] :=
  ⟨by decide, spec_c6 env0 fileGood "File validation passed" (by decide)⟩

/-- The possible runs of `process_single_image` for a fixed environment and
file: either validation rejects (no session call, `ValueError` carrying the
validation message), or the two mask passes run and the composited result is
applied to the original.  Every step is a function of the environment and
the input bytes — there is no other source of variation. -/
inductive SingleRun (env : Env) (file : FileInput) :
    Except PyErr Bytes × List SessionCall → Prop where
  | invalid (msg : String)
      (hval : validate_file_security env.magic file.content file.filename = (false, msg)) :
      SingleRun env file (Except.error (PyErr.valueError msg), [])
  | valid (vmsg : String) (bodyMask detailMask : GrayImage) (res : Except PyErr Bytes)
      (hval : validate_file_security env.magic file.content file.filename = (true, vmsg))
      (hbody : bodyMask = env.session (SessionCall.mask file.content))
      (hdetail : detailMask = env.session (SessionCall.maskMatting file.content 200 20 10))
      (hres : res = apply_mask_to_image env file.content
          (composed_mask env bodyMask detailMask)) :
      SingleRun env file (res,
        [SessionCall.mask file.content, SessionCall.maskMatting file.content 200 20 10])

/-- C7: determinism of the single-image pipeline — any two runs on the same
input bytes under the same environment produce identical output and session
log; no stage of mask generation, morphology, smoothing, or encoding
introduces hidden nondeterminism. -/
theorem spec_c7 (env : Env) (file : FileInput)
    (out₁ out₂ : Except PyErr Bytes × List SessionCall)
    (h₁ : SingleRun env file out₁) (h₂ : SingleRun env file out₂) : out₁ = out₂ := by
  cases h₁ with
  | invalid msg₁ hval₁ =>
      cases h₂ with
      | invalid msg₂ hval₂ =>
          rw [hval₁] at hval₂
          simp only [Prod.mk.injEq] at hval₂
          rw [hval₂.2]
      | valid vmsg₂ b₂ d₂ r₂ hval₂ _ _ _ =>
          rw [hval₁] at hval₂
          simp at hval₂
  | valid vmsg₁ b₁ d₁ r₁ hval₁ hb₁ hd₁ hr₁ =>
      cases h₂ with
      | invalid msg₂ hval₂ =>
          rw [hval₁] at hval₂
          simp at hval₂
      | valid vmsg₂ b₂ d₂ r₂ hval₂ hb₂ hd₂ hr₂ =>
          subst hb₁; subst hd₁; subst hb₂; subst hd₂
          rw [hr₁, hr₂]

/-- `process_single_image` is one of the runs described by `SingleRun`. -/
theorem singleRun_process (env : Env) (file : FileInput) :
    SingleRun env file (process_single_image env file) := by
  unfold process_single_image
  cases hval : validate_file_security env.magic file.content file.filename with
  | mk b msg =>
      cases b
      · exact SingleRun.invalid msg hval
      · exact SingleRun.valid msg _ _ _ hval rfl rfl rfl

/-- C7 witness: the theorem applied to two (identical, as proved) runs of
the concrete environment on the PNG stub. -/
theorem spec_c7_witness :
    SingleRun env0 fileGood (process_single_image env0 fileGood)
      ∧ process_single_image env0 fileGood = process_single_image env0 fileGood :=
  ⟨singleRun_process env0 fileGood,
   spec_c7 env0 fileGood _ _ (singleRun_process env0 fileGood)
     (singleRun_process env0 fileGood)⟩

theorem convertRGBA_fields (img : PILImage) :
    (convertRGBA img).width = img.width ∧ (convertRGBA img).height = img.height ∧
      (convertRGBA img).rgb = img.rgb ∧ (convertRGBA img).mode = "RGBA" := by
  unfold convertRGBA
  split
  · rename_i h; exact ⟨rfl, rfl, rfl, h⟩
  · exact ⟨rfl, rfl, rfl, rfl⟩

/-- C8: the image compositor decodes the source, ensures mode RGBA,
replaces the alpha band by the single channel of the mask, and encodes that image
as PNG: dimensions and colour data of the source are untouched — no
cropping, resizing, or colour correction. -/
theorem spec_c8 (env : Env) (original : Bytes) (mask : GrayImage) (img : PILImage)
    (hdec : env.decodeImage original = some img)
    (hrows : mask.rows = img.height) (hcols : mask.cols = img.width) :
    ∃ outImg,
      apply_mask_to_image env original mask = Except.ok (env.encodePNG outImg)
        ∧ outImg.width = img.width ∧ outImg.height = img.height
        ∧ outImg.rgb = img.rgb ∧ outImg.alpha = mask.px ∧ outImg.mode = "RGBA" := by
  obtain ⟨hw, hh, hrgb, hmode⟩ := convertRGBA_fields img
  refine ⟨{ convertRGBA img with alpha := mask.px }, ?_, hw, hh, hrgb, rfl, hmode⟩
  have hcond : mask.rows = (convertRGBA img).height ∧
      mask.cols = (convertRGBA img).width :=
    ⟨hrows.trans hh.symm, hcols.trans hw.symm⟩
  simp only [apply_mask_to_image, hdec, putalpha]
  rw [if_pos hcond]

/-- C8 witness: the theorem applied to `env0` and a 1 × 1 mask. -/
theorem spec_c8_witness :
    env0.decodeImage pngStub = some ⟨1, 1, "RGB", [[(10, 20, 30)]], [[255]]⟩
      ∧ ∃ outImg,
          apply_mask_to_image env0 pngStub ⟨1, 1, [[7]]⟩ =
              Except.ok (env0.encodePNG outImg)
            ∧ outImg.width = 1 ∧ outImg.height = 1
            ∧ outImg.rgb = [[(10, 20, 30)]] ∧ outImg.alpha = [[7]]
            ∧ outImg.mode = "RGBA" :=
  ⟨rfl, spec_c8 env0 pngStub ⟨1, 1, [[7]]⟩ ⟨1, 1, "RGB", [[(10, 20, 30)]], [[255]]⟩
    rfl rfl rfl⟩

/-! ### Characterisation of the gather fold. -/

def exceptIsOk {ε α : Type} : Except ε α → Bool
  | .ok _ => true
  | .error _ => false

/-- A successfully processed file adds exactly its own success entry. -/
theorem pas_ok_case (env : Env) (lang : String) (results : BatchResults)
    (file : FileInput) (b : Bytes)
    (h : (process_single_image env file).1 = Except.ok b) :
    process_and_store env lang results file =
      (Except.ok (⟨dictInsert results.success file.filename ⟨env.b64encode b, "PNG"⟩,
        results.errors⟩ : BatchResults), (process_single_image env file).2) := by
  unfold process_and_store
  cases hps : process_single_image env file with
  | mk r calls =>
      rw [hps] at h
      dsimp at h
      subst h
      rfl

/-- A failed file adds exactly its own failure entry, keyed by its name and
carrying `str(e)`; the handler itself returns normally. -/
theorem pas_error_case (env : Env) (lang : String) (results : BatchResults)
    (file : FileInput) (e : PyErr)
    (h : (process_single_image env file).1 = Except.error e) :
    ∃ failMsg,
      process_and_store env lang results file =
        (Except.ok (⟨results.success,
            dictInsert results.errors file.filename ⟨errStr e, failMsg⟩⟩ : BatchResults),
         (process_single_image env file).2) := by
  obtain ⟨m, hm⟩ := messages_get_file_processing_ok lang file.filename
  refine ⟨m, ?_⟩
  unfold process_and_store
  cases hps : process_single_image env file with
  | mk r calls =>
      rw [hps] at h
      dsimp at h
      subst h
      rw [show (messages_get "file_processing_error" lang
        [("filename", file.filename)]) = Except.ok m from hm]

theorem step_ok (env : Env) (lang : String) (results : BatchResults)
    (calls : List SessionCall) (file : FileInput) (b : Bytes)
    (h : (process_single_image env file).1 = Except.ok b) :
    batch_step env lang (Except.ok results, calls) file =
      (Except.ok (⟨dictInsert results.success file.filename ⟨env.b64encode b, "PNG"⟩,
        results.errors⟩ : BatchResults),
       calls ++ (process_single_image env file).2) := by
  unfold batch_step
  dsimp only
  rw [pas_ok_case env lang results file b h]

theorem step_error (env : Env) (lang : String) (results : BatchResults)
    (calls : List SessionCall) (file : FileInput) (e : PyErr)
    (h : (process_single_image env file).1 = Except.error e) :
    ∃ failMsg,
      batch_step env lang (Except.ok results, calls) file =
        (Except.ok (⟨results.success,
            dictInsert results.errors file.filename ⟨errStr e, failMsg⟩⟩ : BatchResults),
         calls ++ (process_single_image env file).2) := by
  obtain ⟨m, hpas⟩ := pas_error_case env lang results file e h
  refine ⟨m, ?_⟩
  unfold batch_step
  dsimp only
  rw [hpas]

theorem step_exists (env : Env) (lang : String) (results : BatchResults)
    (calls : List SessionCall) (file : FileInput) :
    ∃ res', batch_step env lang (Except.ok results, calls) file =
      (Except.ok res', calls ++ (process_single_image env file).2) := by
  cases hg : (process_single_image env file).1 with
  | ok b => exact ⟨_, step_ok env lang results calls file b hg⟩
  | error e =>
      obtain ⟨m, hstep⟩ := step_error env lang results calls file e hg
      exact ⟨_, hstep⟩

/-- The gather never escapes with an exception: every per-file outcome is
absorbed into the result maps. -/
theorem fold_ok (env : Env) (lang : String) :
    ∀ (files : List FileInput) (results : BatchResults) (calls : List SessionCall),
      ∃ res' calls',
        List.foldl (batch_step env lang) (Except.ok results, calls) files =
          (Except.ok res', calls') := by
  intro files
  induction files with
  | nil => intro results calls; exact ⟨results, calls, rfl⟩
  | cons g gs ih =>
      intro results calls
      rw [List.foldl_cons]
      obtain ⟨res₀, hstep⟩ := step_exists env lang results calls g
      rw [hstep]
      exact ih res₀ _

/-- Files whose names differ from `name` never touch the entry at `name`. -/
theorem fold_preserve (env : Env) (lang : String) :
    ∀ (files : List FileInput) (results : BatchResults) (calls : List SessionCall)
      (name : String), (∀ g ∈ files, g.filename ≠ name) →
      ∀ (res' : BatchResults) (calls' : List SessionCall),
        List.foldl (batch_step env lang) (Except.ok results, calls) files =
          (Except.ok res', calls') →
        dictLookup res'.success name = dictLookup results.success name ∧
          dictLookup res'.errors name = dictLookup results.errors name := by
  intro files
  induction files with
  | nil =>
      intro results calls name _ res' calls' hrun
      rw [List.foldl_nil] at hrun
      simp only [Prod.mk.injEq, Except.ok.injEq] at hrun
      rw [← hrun.1]
      exact ⟨rfl, rfl⟩
  | cons g gs ih =>
      intro results calls name hnm res' calls' hrun
      rw [List.foldl_cons] at hrun
      have hgname : g.filename ≠ name := hnm g (List.mem_cons_self g gs)
      have hnm' : ∀ x ∈ gs, x.filename ≠ name :=
        fun x hx => hnm x (List.mem_cons_of_mem _ hx)
      cases hg : (process_single_image env g).1 with
      | ok b =>
          rw [step_ok env lang results calls g b hg] at hrun
          have hih := ih _ _ name hnm' res' calls' hrun
          refine ⟨?_, hih.2⟩
          rw [hih.1]
          exact dictLookup_insert_other _ _ _ _ hgname
      | error e =>
          obtain ⟨m, hstep⟩ := step_error env lang results calls g e hg
          rw [hstep] at hrun
          have hih := ih _ _ name hnm' res' calls' hrun
          refine ⟨hih.1, ?_⟩
          rw [hih.2]
          exact dictLookup_insert_other _ _ _ _ hgname

/-- Entry of a given file after the whole fold, for batches with pairwise
distinct filenames: determined by the pipeline outcome of that file alone. -/
theorem fold_lookup (env : Env) (lang : String) :
    ∀ (files : List FileInput) (results : BatchResults) (calls : List SessionCall)
      (f : FileInput), f ∈ files →
      files.Pairwise (fun a b => a.filename ≠ b.filename) →
      f.filename ∉ dictKeys results.success →
      f.filename ∉ dictKeys results.errors →
      ∀ (res' : BatchResults) (calls' : List SessionCall),
        List.foldl (batch_step env lang) (Except.ok results, calls) files =
          (Except.ok res', calls') →
        (∀ b, (process_single_image env f).1 = Except.ok b →
            dictLookup res'.success f.filename = some ⟨env.b64encode b, "PNG"⟩ ∧
              dictLookup res'.errors f.filename = none) ∧
          (∀ e, (process_single_image env f).1 = Except.error e →
            ∃ failMsg,
              dictLookup res'.errors f.filename = some ⟨errStr e, failMsg⟩ ∧
                dictLookup res'.success f.filename = none) := by
  intro files
  induction files with
  | nil => intro results calls f hf; cases hf
  | cons g gs ih =>
      intro results calls f hf hnodup hks hke res' calls' hrun
      rw [List.foldl_cons] at hrun
      rcases List.mem_cons.mp hf with hfg | hfgs
      · subst hfg
        have hother : ∀ x ∈ gs, x.filename ≠ f.filename := by
          intro x hx
          exact fun hx' => (List.pairwise_cons.mp hnodup).1 x hx hx'.symm
        cases hg : (process_single_image env f).1 with
        | ok b =>
            rw [step_ok env lang results calls f b hg] at hrun
            have hpres := fold_preserve env lang gs _ _ f.filename hother res' calls' hrun
            constructor
            · intro b' hb'
              cases hb'
              refine ⟨?_, ?_⟩
              · rw [hpres.1]; exact dictLookup_insert_self _ _ _
              · rw [hpres.2]; exact dictLookup_eq_none_of_not_mem_keys _ _ hke
            · intro e he
              cases he
        | error e =>
            obtain ⟨m, hstep⟩ := step_error env lang results calls f e hg
            rw [hstep] at hrun
            have hpres := fold_preserve env lang gs _ _ f.filename hother res' calls' hrun
            constructor
            · intro b hb
              cases hb
            · intro e' he'
              cases he'
              refine ⟨m, ?_, ?_⟩
              · rw [hpres.2]; exact dictLookup_insert_self _ _ _
              · rw [hpres.1]; exact dictLookup_eq_none_of_not_mem_keys _ _ hks
      · have hgf : g.filename ≠ f.filename := by
          intro hx
          exact (List.pairwise_cons.mp hnodup).1 f hfgs hx
        obtain ⟨res₀, hstep⟩ := step_exists env lang results calls g
        have hks₀ : f.filename ∉ dictKeys res₀.success := by
          intro hmem
          cases hg : (process_single_image env g).1 with
          | ok b =>
              rw [step_ok env lang results calls g b hg] at hstep
              simp only [Prod.mk.injEq, Except.ok.injEq] at hstep
              rw [← hstep.1] at hmem
              rcases (mem_dictKeys_insert _ _ _ _).mp hmem with h | h
              · exact hgf h.symm
              · exact hks h
          | error e =>
              obtain ⟨m, hstep'⟩ := step_error env lang results calls g e hg
              rw [hstep'] at hstep
              simp only [Prod.mk.injEq, Except.ok.injEq] at hstep
              rw [← hstep.1] at hmem
              exact hks hmem
        have hke₀ : f.filename ∉ dictKeys res₀.errors := by
          intro hmem
          cases hg : (process_single_image env g).1 with
          | ok b =>
              rw [step_ok env lang results calls g b hg] at hstep
              simp only [Prod.mk.injEq, Except.ok.injEq] at hstep
              rw [← hstep.1] at hmem
              exact hke hmem
          | error e =>
              obtain ⟨m, hstep'⟩ := step_error env lang results calls g e hg
              rw [hstep'] at hstep
              simp only [Prod.mk.injEq, Except.ok.injEq] at hstep
              rw [← hstep.1] at hmem
              rcases (mem_dictKeys_insert _ _ _ _).mp hmem with h | h
              · exact hgf h.symm
              · exact hke h
        rw [hstep] at hrun
        exact ih res₀ _ f hfgs (List.pairwise_cons.mp hnodup).2 hks₀ hke₀ res' calls' hrun

theorem countP_total {α : Type} (l : List α) (p : α → Bool) :
    l.countP p + l.countP (fun a => !p a) = l.length := by
  induction l with
  | nil => simp
  | cons a t ih =>
      rw [List.countP_cons, List.countP_cons]
      cases hp : p a <;> simp [hp] <;> omega

theorem countP_or_disjoint {α : Type} (l : List α) (p q : α → Bool)
    (h : ∀ a ∈ l, ¬(p a = true ∧ q a = true)) :
    l.countP (fun a => p a || q a) = l.countP p + l.countP q := by
  induction l with
  | nil => simp
  | cons a t ih =>
      rw [List.countP_cons, List.countP_cons, List.countP_cons]
      have ha := h a (List.mem_cons_self a t)
      have iht := ih (fun x hx => h x (List.mem_cons_of_mem _ hx))
      cases hp : p a <;> cases hq : q a
      · simp [hp, hq, iht]
      · simp [hp, hq, iht]; omega
      · simp [hp, hq, iht]; omega
      · exact absurd ⟨hp, hq⟩ ha

/-- Sizes of the result maps after the fold, for pairwise-distinct filenames
disjoint from the keys already present. -/
theorem fold_counts (env : Env) (lang : String) :
    ∀ (files : List FileInput) (results : BatchResults) (calls : List SessionCall),
      files.Pairwise (fun a b => a.filename ≠ b.filename) →
      (∀ g ∈ files, g.filename ∉ dictKeys results.success ∧
          g.filename ∉ dictKeys results.errors) →
      ∀ (res' : BatchResults) (calls' : List SessionCall),
        List.foldl (batch_step env lang) (Except.ok results, calls) files =
          (Except.ok res', calls') →
        res'.success.length = results.success.length +
            files.countP (fun f => exceptIsOk (process_single_image env f).1) ∧
          res'.errors.length = results.errors.length +
            files.countP (fun f => !exceptIsOk (process_single_image env f).1) := by
  intro files
  induction files with
  | nil =>
      intro results calls _ _ res' calls' hrun
      rw [List.foldl_nil] at hrun
      simp only [Prod.mk.injEq, Except.ok.injEq] at hrun
      rw [← hrun.1]
      simp
  | cons g gs ih =>
      intro results calls hnodup hkeys res' calls' hrun
      rw [List.foldl_cons] at hrun
      have hkg := hkeys g (List.mem_cons_self g gs)
      have hhead := (List.pairwise_cons.mp hnodup).1
      have htail := (List.pairwise_cons.mp hnodup).2
      cases hg : (process_single_image env g).1 with
      | ok b =>
          rw [step_ok env lang results calls g b hg] at hrun
          have hkeys' : ∀ x ∈ gs,
              x.filename ∉ dictKeys (dictInsert results.success g.filename
                ⟨env.b64encode b, "PNG"⟩) ∧ x.filename ∉ dictKeys results.errors := by
            intro x hx
            refine ⟨?_, (hkeys x (List.mem_cons_of_mem _ hx)).2⟩
            intro hmem
            rcases (mem_dictKeys_insert _ _ _ _).mp hmem with hcase | hcase
            · exact hhead x hx hcase.symm
            · exact (hkeys x (List.mem_cons_of_mem _ hx)).1 hcase
          have hih := ih _ _ htail hkeys' res' calls' hrun
          rw [List.countP_cons, List.countP_cons]
          have h1 := hih.1
          have h2 := hih.2
          rw [length_dictInsert_new _ _ _ hkg.1] at h1
          constructor
          · rw [h1]; simp [hg, exceptIsOk]; omega
          · rw [h2]; simp [hg, exceptIsOk]
      | error e =>
          obtain ⟨m, hstep⟩ := step_error env lang results calls g e hg
          rw [hstep] at hrun
          have hkeys' : ∀ x ∈ gs,
              x.filename ∉ dictKeys results.success ∧
                x.filename ∉ dictKeys (dictInsert results.errors g.filename
                  ⟨errStr e, m⟩) := by
            intro x hx
            refine ⟨(hkeys x (List.mem_cons_of_mem _ hx)).1, ?_⟩
            intro hmem
            rcases (mem_dictKeys_insert _ _ _ _).mp hmem with hcase | hcase
            · exact hhead x hx hcase.symm
            · exact (hkeys x (List.mem_cons_of_mem _ hx)).2 hcase
          have hih := ih _ _ htail hkeys' res' calls' hrun
          rw [List.countP_cons, List.countP_cons]
          have h1 := hih.1
          have h2 := hih.2
          rw [length_dictInsert_new _ _ _ hkg.2] at h2
          constructor
          · rw [h1]; simp [hg, exceptIsOk]
          · rw [h2]; simp [hg, exceptIsOk]; omega

/-- Validation failure forces the pipeline to raise the validation message
as a `ValueError`. -/
theorem psi_of_val_false (env : Env) (f : FileInput)
    (h : (validate_file_security env.magic f.content f.filename).1 = false) :
    (process_single_image env f).1 = Except.error
      (PyErr.valueError (validate_file_security env.magic f.content f.filename).2) := by
  unfold process_single_image
  cases hval : validate_file_security env.magic f.content f.filename with
  | mk bb msg =>
      rw [hval] at h
      dsimp at h
      subst h
      rfl

/-- C1 counterexample: with two *failing* files sharing one filename, the
second failure overwrites the recorded failure entry of the first, so the
exception of the first file is no longer recorded anywhere in the batch result —
refuting the claim for arbitrary (not name-distinct) batches.  Here
`fileBadA1` raises the suspicious-content `ValueError`, yet the batch
only batch-response entry under "a.png" carries the metadata
message, and `failed` is 1 for two failed files. -/
theorem spec_c1_counterexample :
    fileBadA1 ≠ fileBadA2
      ∧ fileBadA1.filename = fileBadA2.filename
      ∧ (process_single_image env0 fileBadA1).1 =
          Except.error (PyErr.valueError "Suspicious content detected in file")
      ∧ (process_single_image env0 fileBadA2).1 =
          Except.error (PyErr.valueError "Potentially dangerous content detected")
      ∧ (remove_background_batch env0 false [fileBadA1, fileBadA2] "en").1 =
          Except.ok ⟨⟨[], [("a.png", ⟨"Potentially dangerous content detected",
              "Error processing file: a.png"⟩)]⟩,
            "Batch processing completed. Successful: 0, Failed: 1", 2, 0, 1, "en"⟩ := by
  refine ⟨by decide, by decide, by decide, by decide, by decide⟩

/-- C1 (amended): for every batch whose filenames are pairwise distinct, the
orchestrator never raises during per-file processing, every pipeline
exception is caught at the per-file boundary and recorded as a failure
entry keyed by the name of that file and carrying `str(e)`, and each
recorded outcome is a function of the processing of that file alone — a
failing file neither aborts nor alters the entries of its siblings. -/
theorem spec_c1 (env : Env) (lang : String) (files : List FileInput)
    (hnodup : files.Pairwise (fun a b => a.filename ≠ b.filename))
    (hne : files ≠ []) :
    ∃ resp calls,
      remove_background_batch env false files lang = (Except.ok resp, calls)
        ∧ ∀ f ∈ files,
            (∀ b, (process_single_image env f).1 = Except.ok b →
                dictLookup resp.data.success f.filename =
                    some ⟨env.b64encode b, "PNG"⟩
                  ∧ dictLookup resp.data.errors f.filename = none)
              ∧ (∀ e, (process_single_image env f).1 = Except.error e →
                  ∃ failMsg,
                    dictLookup resp.data.errors f.filename =
                        some ⟨errStr e, failMsg⟩
                      ∧ dictLookup resp.data.success f.filename = none) := by
  obtain ⟨res', calls', hrun⟩ := fold_ok env lang files ⟨[], []⟩ []
  obtain ⟨bm, hbm⟩ := messages_get_batch_completed_ok lang
    (toString res'.success.length) (toString res'.errors.length)
  have hemp : files.isEmpty = false := by
    cases files with
    | nil => exact absurd rfl hne
    | cons a l => rfl
  refine ⟨⟨res', bm, files.length, res'.success.length, res'.errors.length, lang⟩,
    calls', ?_, ?_⟩
  · unfold remove_background_batch run_files
    rw [hemp, if_neg Bool.false_ne_true, if_neg Bool.false_ne_true, hrun]
    dsimp only
    rw [hbm]
  · intro f hf
    exact fold_lookup env lang files ⟨[], []⟩ [] f hf hnodup
      (by simp [dictKeys]) (by simp [dictKeys]) res' calls' hrun

/-- C1 witness: the amended theorem applied to a two-file batch with
distinct names in the concrete environment. -/
theorem spec_c1_witness :
    ([fileGood, fileBad].Pairwise (fun a b => a.filename ≠ b.filename))
      ∧ ([fileGood, fileBad] : List FileInput) ≠ []
      ∧ ∃ resp calls,
          remove_background_batch env0 false [fileGood, fileBad] "en" =
              (Except.ok resp, calls)
            ∧ ∀ f ∈ [fileGood, fileBad],
                (∀ b, (process_single_image env0 f).1 = Except.ok b →
                    dictLookup resp.data.success f.filename =
                        some ⟨env0.b64encode b, "PNG"⟩
                      ∧ dictLookup resp.data.errors f.filename = none)
                  ∧ (∀ e, (process_single_image env0 f).1 = Except.error e →
                      ∃ failMsg,
                        dictLookup resp.data.errors f.filename =
                            some ⟨errStr e, failMsg⟩
                          ∧ dictLookup resp.data.success f.filename = none) :=
  ⟨by decide, by decide, spec_c1 env0 "en" [fileGood, fileBad] (by decide) (by decide)⟩

/-- C3 counterexample: two files with the same filename that both succeed.
The success map holds a single entry under the shared name, so the batch
statistics report `successful = 1` and `failed = 0` although N = 2 and
K = M = 0 — refuting `successful = N - K - M` for arbitrary batches. -/
theorem spec_c3_counterexample :
    (exceptIsOk (process_single_image env0 fileGood2).1 = true)
      ∧ (exceptIsOk (process_single_image env0 fileGood2bis).1 = true)
      ∧ ([fileGood2, fileGood2bis].countP
          (fun f => !(validate_file_security env0.magic f.content f.filename).1) = 0)
      ∧ (remove_background_batch env0 false [fileGood2, fileGood2bis] "en").1 =
          Except.ok ⟨⟨[("c.png", ⟨"QUJD", "PNG"⟩)], []⟩,
            "Batch processing completed. Successful: 1, Failed: 0", 2, 1, 0, "en"⟩
      ∧ (1 : Nat) ≠ 2 - 0 - 0 := by
  refine ⟨by decide, by decide, by decide, by decide, by decide⟩

/-- C3 (amended): for every batch whose filenames are pairwise distinct,
with K files failing validation and M files failing later in the pipeline,
the statistics report `total_files = N`, `successful = N - K - M`,
`failed = K + M`, and each input filename is a key of exactly one of the
success and errors maps. -/
theorem spec_c3 (env : Env) (lang : String) (files : List FileInput)
    (hnodup : files.Pairwise (fun a b => a.filename ≠ b.filename))
    (hne : files ≠ []) :
    ∃ resp calls,
      remove_background_batch env false files lang = (Except.ok resp, calls)
        ∧ resp.totalFiles = files.length
        ∧ resp.successful = files.length
            - files.countP (fun f => !(validate_file_security env.magic
                f.content f.filename).1)
            - files.countP (fun f => (validate_file_security env.magic
                f.content f.filename).1 && !exceptIsOk (process_single_image env f).1)
        ∧ resp.failed = files.countP (fun f => !(validate_file_security env.magic
                f.content f.filename).1)
            + files.countP (fun f => (validate_file_security env.magic
                f.content f.filename).1 && !exceptIsOk (process_single_image env f).1)
        ∧ ∀ f ∈ files,
            (dictLookup resp.data.success f.filename).isSome =
              !(dictLookup resp.data.errors f.filename).isSome := by
  obtain ⟨res', calls', hrun⟩ := fold_ok env lang files ⟨[], []⟩ []
  obtain ⟨bm, hbm⟩ := messages_get_batch_completed_ok lang
    (toString res'.success.length) (toString res'.errors.length)
  have hemp : files.isEmpty = false := by
    cases files with
    | nil => exact absurd rfl hne
    | cons a l => rfl
  have hkeys0 : ∀ g ∈ files,
      g.filename ∉ dictKeys ((⟨[], []⟩ : BatchResults)).success ∧
        g.filename ∉ dictKeys ((⟨[], []⟩ : BatchResults)).errors := by
    intro g _
    simp [dictKeys]
  have hcounts := fold_counts env lang files ⟨[], []⟩ [] hnodup hkeys0 res' calls' hrun
  have hok := hcounts.1
  have herr := hcounts.2
  have hbool : ∀ f ∈ files,
      (!exceptIsOk (process_single_image env f).1) =
        ((!(validate_file_security env.magic f.content f.filename).1) ||
          ((validate_file_security env.magic f.content f.filename).1 &&
            !exceptIsOk (process_single_image env f).1)) := by
    intro f _
    cases hv : (validate_file_security env.magic f.content f.filename).1
    · rw [psi_of_val_false env f hv]
      simp [exceptIsOk]
    · simp
  have hdisj : ∀ f ∈ files,
      ¬((!(validate_file_security env.magic f.content f.filename).1) = true ∧
        ((validate_file_security env.magic f.content f.filename).1 &&
          !exceptIsOk (process_single_image env f).1) = true) := by
    rintro f _ ⟨h1, h2⟩
    rw [Bool.not_eq_true'] at h1
    rw [h1] at h2
    simp at h2
  have hsplit : files.countP (fun f => !exceptIsOk (process_single_image env f).1) =
      files.countP (fun f => !(validate_file_security env.magic f.content f.filename).1)
        + files.countP (fun f => (validate_file_security env.magic f.content f.filename).1
            && !exceptIsOk (process_single_image env f).1) := by
    rw [← countP_or_disjoint files _ _ hdisj]
    exact List.countP_congr
      (fun f hf => (congrArg (fun b => b = true) (hbool f hf)).to_iff)
  have htotal : files.countP (fun f => exceptIsOk (process_single_image env f).1)
      + files.countP (fun f => !exceptIsOk (process_single_image env f).1) =
        files.length :=
    countP_total files (fun f => exceptIsOk (process_single_image env f).1)
  have hok' : res'.success.length =
      files.countP (fun f => exceptIsOk (process_single_image env f).1) := by
    simpa using hok
  have herr' : res'.errors.length =
      files.countP (fun f => !exceptIsOk (process_single_image env f).1) := by
    simpa using herr
  refine ⟨⟨res', bm, files.length, res'.success.length, res'.errors.length, lang⟩,
    calls', ?_, rfl, ?_, ?_, ?_⟩
  · unfold remove_background_batch run_files
    rw [hemp, if_neg Bool.false_ne_true, if_neg Bool.false_ne_true, hrun]
    dsimp only
    rw [hbm]
  · show res'.success.length = _
    omega
  · show res'.errors.length = _
    omega
  · intro f hf
    have hl := fold_lookup env lang files ⟨[], []⟩ [] f hf hnodup
      (by simp [dictKeys]) (by simp [dictKeys]) res' calls' hrun
    cases hps : (process_single_image env f).1 with
    | ok b =>
        obtain ⟨h1, h2⟩ := hl.1 b hps
        show (dictLookup res'.success f.filename).isSome = _
        rw [h1, h2]
        rfl
    | error e =>
        obtain ⟨fm, h1, h2⟩ := hl.2 e hps
        show (dictLookup res'.success f.filename).isSome = _
        rw [h1, h2]
        rfl

/-- C3 witness: the amended theorem applied to a two-file batch (one
success, one validation failure) with distinct names. -/
theorem spec_c3_witness :
    ([fileGood, fileBad].Pairwise (fun a b => a.filename ≠ b.filename))
      ∧ ([fileGood, fileBad] : List FileInput) ≠ []
      ∧ ∃ resp calls,
          remove_background_batch env0 false [fileGood, fileBad] "en" =
              (Except.ok resp, calls)
            ∧ resp.totalFiles = [fileGood, fileBad].length
            ∧ resp.successful = [fileGood, fileBad].length
                - [fileGood, fileBad].countP (fun f => !(validate_file_security env0.magic
                    f.content f.filename).1)
                - [fileGood, fileBad].countP (fun f => (validate_file_security env0.magic
                    f.content f.filename).1 && !exceptIsOk (process_single_image env0 f).1)
            ∧ resp.failed = [fileGood, fileBad].countP (fun f => !(validate_file_security
                    env0.magic f.content f.filename).1)
                + [fileGood, fileBad].countP (fun f => (validate_file_security env0.magic
                    f.content f.filename).1 && !exceptIsOk (process_single_image env0 f).1)
            ∧ ∀ f ∈ [fileGood, fileBad],
                (dictLookup resp.data.success f.filename).isSome =
                  !(dictLookup resp.data.errors f.filename).isSome :=
  ⟨by decide, by decide, spec_c3 env0 "en" [fileGood, fileBad] (by decide) (by decide)⟩

/-! ### Batch operation tracking (`routes/batch_operations.py`).

`BatchOperation._process_batch` iterates over `photo_ids` in order;
`_process_single_photo` is a no-op success for every operation type, so the
`failed` branch of the inner handler is unreachable; the progress/ETA fields are
bookkeeping that does not influence control flow and are omitted.
`cancel_operation` flips the stored status to cancelled and returns
True when the id is registered — and the loop never reads that flag.  The
interleaving of the loop with cancellation requests arriving from the
endpoint is modelled as a small-step system over the operation record plus
an event trace. -/

structure BatchOp where
  photoIds : List String
  status : String
  completed : Nat
  failed : Nat
  idx : Nat
deriving DecidableEq

/-- The record as `_process_batch` enters its loop. -/
def initOp (ids : List String) : BatchOp := ⟨ids, "processing", 0, 0, 0⟩

/-- One loop iteration: `_process_single_photo` succeeds, `completed` is
incremented, the loop moves on — with no look at `status`. -/
def processStep (op : BatchOp) : BatchOp :=
  { op with idx := op.idx + 1, completed := op.completed + 1 }

/-- Effect of a successful `cancel_operation` on the record. -/
def cancelMark (op : BatchOp) : BatchOp := { op with status := "cancelled" }

/-- The unconditional status assignment to completed after the loop. -/
def finishMark (op : BatchOp) : BatchOp := { op with status := "completed" }

/-- `cancel_operation`: mark the registered operation cancelled and report
True, or report False for an unknown id. -/
def cancel_operation (ops : List (String × BatchOp)) (batchId : String) :
    List (String × BatchOp) × Bool :=
  match dictLookup ops batchId with
  | some op => (dictInsert ops batchId (cancelMark op), true)
  | none => (ops, false)

inductive BatchEvent where
  | processed (pid : String)
  | cancelRequested
deriving DecidableEq

/-- Interleaved behaviour of the loop and the cancel endpoint: while photos
remain the loop may process the next one (regardless of status), a
successful cancellation may be requested at any point, and once the index
passes the end the loop stamps the status completed. -/
inductive BatchStep :
    BatchOp × List BatchEvent → BatchOp × List BatchEvent → Prop where
  | proc (op : BatchOp) (tr : List BatchEvent) (h : op.idx < op.photoIds.length) :
      BatchStep (op, tr)
        (processStep op, tr ++ [BatchEvent.processed (op.photoIds.getD op.idx "")])
  | cancel (op : BatchOp) (tr : List BatchEvent) :
      BatchStep (op, tr) (cancelMark op, tr ++ [BatchEvent.cancelRequested])
  | finish (op : BatchOp) (tr : List BatchEvent) (h : op.idx = op.photoIds.length) :
      BatchStep (op, tr) (finishMark op, tr)

inductive BatchReachable :
    BatchOp × List BatchEvent → BatchOp × List BatchEvent → Prop where
  | refl (s : BatchOp × List BatchEvent) : BatchReachable s s
  | tail {s t u : BatchOp × List BatchEvent} :
      BatchReachable s t → BatchStep t u → BatchReachable s u

theorem batchReachable_head {s t u : BatchOp × List BatchEvent}
    (hst : BatchStep s t) (htu : BatchReachable t u) : BatchReachable s u := by
  induction htu with
  | refl => exact .tail (.refl _) hst
  | tail _ hstep ih => exact .tail ih hstep

def isProcessed : BatchEvent → Bool
  | .processed _ => true
  | .cancelRequested => false

/-- Does a `processed` event occur strictly after a `cancelRequested`? -/
def procAfterCancel : List BatchEvent → Bool
  | [] => false
  | .cancelRequested :: rest => rest.any isProcessed
  | .processed _ :: rest => procAfterCancel rest

/-- C9 counterexample: a batch of two photos, cancelled after the first
photo, still processes the second — the loop never checks the flag.  The
trace `processed p1, cancel, processed p2` is reachable, and the final
record even shows both photos completed under status cancelled. -/
theorem spec_c9_counterexample :
    BatchReachable (initOp ["p1", "p2"], [])
        (⟨["p1", "p2"], "cancelled", 2, 0, 2⟩,
         [BatchEvent.processed "p1", BatchEvent.cancelRequested,
          BatchEvent.processed "p2"])
      ∧ procAfterCancel [BatchEvent.processed "p1", BatchEvent.cancelRequested,
          BatchEvent.processed "p2"] = true := by
  refine ⟨?_, by decide⟩
  exact BatchReachable.tail
    (BatchReachable.tail
      (BatchReachable.tail (BatchReachable.refl _)
        (BatchStep.proc (initOp ["p1", "p2"]) [] (by decide)))
      (BatchStep.cancel _ _))
    (BatchStep.proc _ _ (by decide))

theorem drop_idx_cons : ∀ (l : List String) (i : Nat), i < l.length →
    l.drop i = l.getD i "" :: l.drop (i + 1) := by
  intro l
  induction l with
  | nil => intro i h; simp at h
  | cons a t ih =>
      intro i h
      cases i with
      | zero => simp [List.getD]
      | succ j =>
          simp only [List.drop_succ_cons, List.getD_cons_succ]
          exact ih j (by simpa using h)

/-- From any state, the loop can still run every remaining photo to
completion and then stamps the status completed — whatever the current
status is. -/
theorem loop_completes : ∀ (n : Nat) (op : BatchOp) (tr : List BatchEvent),
    op.photoIds.length - op.idx = n → op.idx ≤ op.photoIds.length →
    BatchReachable (op, tr)
      (⟨op.photoIds, "completed", op.completed + n, op.failed, op.photoIds.length⟩,
       tr ++ (op.photoIds.drop op.idx).map BatchEvent.processed) := by
  intro n
  induction n with
  | zero =>
      intro op tr hn hle
      have hidx : op.idx = op.photoIds.length := by omega
      have hdrop : op.photoIds.drop op.idx = [] :=
        List.drop_eq_nil_of_le (by omega)
      rw [hdrop]
      have heq : (⟨op.photoIds, "completed", op.completed + 0, op.failed,
          op.photoIds.length⟩ : BatchOp) = finishMark op := by
        cases op with
        | mk a b c d e =>
            simp only [finishMark] at *
            simp_all
      rw [heq, List.map_nil, List.append_nil]
      exact .tail (.refl _) (BatchStep.finish op tr hidx)
  | succ k ih =>
      intro op tr hn hle
      have hlt : op.idx < op.photoIds.length := by omega
      have hreach := ih (processStep op)
        (tr ++ [BatchEvent.processed (op.photoIds.getD op.idx "")])
        (by simp [processStep]; omega) (by simp [processStep]; omega)
      rw [drop_idx_cons op.photoIds op.idx hlt, List.map_cons]
      have harr : tr ++ (BatchEvent.processed (op.photoIds.getD op.idx "") ::
          (op.photoIds.drop (op.idx + 1)).map BatchEvent.processed) =
          (tr ++ [BatchEvent.processed (op.photoIds.getD op.idx "")]) ++
            (op.photoIds.drop (op.idx + 1)).map BatchEvent.processed := by
        simp
      rw [harr]
      have hcompleted : op.completed + (k + 1) = op.completed + 1 + k := by omega
      rw [hcompleted]
      exact batchReachable_head (BatchStep.proc op tr hlt) hreach

/-- C9 (amended): `cancel_operation` marks a registered operation
cancelled and returns True (False for unknown ids), but
`_process_batch` never reads the flag: from any state — in particular right
after a successful cancellation — the loop still processes every photo not
yet started, and on finishing overwrites the status with completed. -/
theorem spec_c9 (reg : List (String × BatchOp)) (batchId : String)
    (op : BatchOp) (tr : List BatchEvent) :
    (∀ o, dictLookup reg batchId = some o →
        cancel_operation reg batchId = (dictInsert reg batchId (cancelMark o), true))
      ∧ (dictLookup reg batchId = none → cancel_operation reg batchId = (reg, false))
      ∧ (op.idx ≤ op.photoIds.length →
          BatchReachable (op, tr)
            (⟨op.photoIds, "completed",
               op.completed + (op.photoIds.length - op.idx), op.failed,
               op.photoIds.length⟩,
             tr ++ (op.photoIds.drop op.idx).map BatchEvent.processed)) := by
  refine ⟨?_, ?_, ?_⟩
  · intro o ho
    unfold cancel_operation
    rw [ho]
  · intro ho
    unfold cancel_operation
    rw [ho]
  · intro hle
    exact loop_completes (op.photoIds.length - op.idx) op tr rfl hle

/-- C9 witness: the amended theorem applied to a one-element registry and to
the cancelled state of a two-photo batch. -/
theorem spec_c9_witness :
    cancel_operation [("b1", initOp ["p"])] "b1" =
        ([("b1", cancelMark (initOp ["p"]))], true)
      ∧ cancel_operation [] "b2" = ([], false)
      ∧ BatchReachable (cancelMark (initOp ["p1", "p2"]), [BatchEvent.cancelRequested])
          (⟨["p1", "p2"], "completed", 2, 0, 2⟩,
           [BatchEvent.cancelRequested, BatchEvent.processed "p1",
            BatchEvent.processed "p2"]) :=
  ⟨(spec_c9 [("b1", initOp ["p"])] "b1" (initOp ["p"]) []).1 (initOp ["p"]) rfl,
   (spec_c9 [] "b2" (initOp ["p"]) []).2.1 rfl,
   (spec_c9 [] "b2" (cancelMark (initOp ["p1", "p2"]))
     [BatchEvent.cancelRequested]).2.2 (by decide)⟩

end StudyoCepte
